import Mathlib

/-!
Shallow embedding of `src/pesc.c` (PESC, a pseudorandom byte-stream
transform built from a Park-Miller style generator, a keyed Fisher-Yates
shuffle and a keyed additive byte mask).

Modelling conventions:
* buffers are `List Nat` whose entries are byte values (`< 256`);
* the C global `uint32_t seed` is threaded explicitly: every function that
  reads the generator takes the current seed and returns the updated one;
* `uint32_t` / `size_t` arithmetic is `Nat` with explicit reduction modulo
  `2 ^ 32` / `2 ^ 64` where wraparound matters;
* operations whose C counterpart dereferences a failed allocation or is
  otherwise undefined return `none`.
-/

/-- RAND_MAX as redefined in pesc.c (line 26). -/
def RAND_MAX : Nat := 65534

/-- Seed value actually used by one `random()` call (pesc.c line 34): a zero
seed is replaced first.  The replacement literal in the source, `0F1F2F3F4`,
is not valid C numeric syntax; it is modelled as the evidently intended
`0xF1F2F3F4`, the same bit pattern as the initializer of the global `seed`
on line 28. -/
def effSeed (s : Nat) : Nat := if s = 0 then 0xF1F2F3F4 else s

/-- Unsigned 32-bit accumulator `v` of `random()` (pesc.c line 35):
`16807 * (seed % 127773) - 2836 * (seed / 127773)` evaluated in `uint32_t`,
so the subtraction wraps modulo `2 ^ 32`. -/
def randomV (s0 : Nat) : Nat :=
  (16807 * (effSeed s0 % 127773) % 2 ^ 32
    + (2 ^ 32 - 2836 * (effSeed s0 / 127773) % 2 ^ 32)) % 2 ^ 32

/-- One call of `random()` (pesc.c lines 32-38): returns the drawn value and
the new seed.  The negative-correction branch of line 36 is kept exactly as
in the source: the comparison `v < 0` is on the unsigned value. -/
def randomStep (s0 : Nat) : Nat × Nat :=
  let v := randomV s0
  let v1 := if v < 0 then (v + 2147483647) % 2 ^ 32 else v
  (v1 % (RAND_MAX + 1), v1)

/-- Seed after `k` consecutive `random()` calls starting from seed `s`. -/
def seedAfter (s : Nat) : Nat → Nat
  | 0 => s
  | k + 1 => (randomStep (seedAfter s k)).2

/-- Value returned by the `(k+1)`-th `random()` call starting from seed `s`
(`k = 0` is the first call). -/
def drawAt (s k : Nat) : Nat := (randomStep (seedAfter s k)).1

/-- Generator step as the specification words it (signed Park-Miller
correction): `v = 16807*(Seed mod 127773) - 2836*(Seed div 127773)`; if that
value is negative, `2147483647` is added; `Seed` becomes the corrected value
and `Seed mod 65535` is returned.  Stated over `Int` so the subtraction and
the sign test are genuine; used only to compare against `randomStep`. -/
def specRandomStep (s : Nat) : Nat × Nat :=
  let v : Int := 16807 * ((s : Int) % 127773) - 2836 * ((s : Int) / 127773)
  let v1 : Int := if v < 0 then v + 2147483647 else v
  ((v1 % 65535).toNat, v1.toNat)

/-- Value of one hex character, following the three range tests of
`HexToUInt32` (pesc.c lines 48-54); a character outside `[0-9a-fA-F]` is the
fatal-error path (line 58), modelled as `none`. -/
def hexVal (c : Char) : Option Nat :=
  if 'A' ≤ c ∧ c ≤ 'F' then some (c.toNat - 'A'.toNat + 10)
  else if 'a' ≤ c ∧ c ≤ 'f' then some (c.toNat - 'a'.toNat + 10)
  else if '0' ≤ c ∧ c ≤ '9' then some (c.toNat - '0'.toNat)
  else none

/-- HexToUInt32, big-endian branch (pesc.c lines 48-50, active when
`__BYTE_ORDER__ == __ORDER_BIG_ENDIAN__`): character `i` of the group is
shifted by `(7 - i) * 4`, so the first character lands in the top nibble. -/
def HexToUInt32BE (str : List Char) (start : Nat) : Option Nat :=
  (List.range 8).foldl
    (fun ov i => ov.bind fun v =>
      (hexVal (str.getD (start + i) '!')).map fun h => v + h * 2 ^ ((7 - i) * 4))
    (some 0)

/-- HexToUInt32, little-endian branch (pesc.c lines 52-54, the branch that
compiles on little-endian hosts): character `i` of the group is shifted by
`i * 4`, so the first character lands in the bottom nibble. -/
def HexToUInt32LE (str : List Char) (start : Nat) : Option Nat :=
  (List.range 8).foldl
    (fun ov i => ov.bind fun v =>
      (hexVal (str.getD (start + i) '!')).map fun h => v + h * 2 ^ (i * 4))
    (some 0)

/-- Value of `len - 1` as computed in `size_t` (pesc.c line 68): for
`len = 0` the subtraction wraps to `2 ^ 64 - 1`. -/
def sizeSub1 (len : Nat) : Nat := (len + (2 ^ 64 - 1)) % 2 ^ 64

/-- Build loop of `GenExchangeTable` (pesc.c lines 69-70) for countdown
indices `i = m, m - 1, ..., 1`: entry for countdown index `i` is
`random() % (i + 1)`, stored in decreasing-`i` order.  Returns the table
together with the seed after the `m` draws. -/
def genTableAux : Nat → Nat → List Nat × Nat
  | 0, s => ([], s)
  | i + 1, s =>
    let p := randomStep s
    let q := genTableAux i p.2
    (p.1 % (i + 2) :: q.1, q.2)

/-- GenExchangeTable (pesc.c lines 66-72).  For `len = 0`, `len - 1` wraps to
`sizeSub1 0 = 2 ^ 64 - 1` entries: that allocation fails and the store loop
writes through the failed allocation, so the call is modelled as `none`. -/
def GenExchangeTable (len s : Nat) : Option (List Nat × Nat) :=
  if len = 0 then none else some (genTableAux (len - 1) s)

/-- Swap of `data[a]` and `data[b]` via a temporary (pesc.c lines 81-83). -/
def swapElems (d : List Nat) (a b : Nat) : List Nat :=
  (d.set a (d.getD b 0)).set b (d.getD a 0)

/-- Swap loop of `Shuffle` (pesc.c lines 78-84): for `i` counting down to 1,
swap `data[i]` with `data[exTable[len - 1 - i]]`.  The body runs first, then
the recursion continues with the next smaller `i`. -/
def shuffleLoop (t : List Nat) (len : Nat) : List Nat → Nat → List Nat
  | d, 0 => d
  | d, i + 1 => shuffleLoop t len (swapElems d (i + 1) (t.getD (len - 1 - (i + 1)) 0)) i

/-- Swap loop of `DeShuffle` (pesc.c lines 91-97): the same swaps, for `i`
counting up from 1; the recursion produces the swaps of smaller `i` first,
then performs its own. -/
def deShuffleLoop (t : List Nat) (len : Nat) : List Nat → Nat → List Nat
  | d, 0 => d
  | d, i + 1 => swapElems (deShuffleLoop t len d i) (i + 1) (t.getD (len - 1 - (i + 1)) 0)

/-- Shuffle (pesc.c lines 75-86): build the exchange table, apply the swaps
for `i = len - 1` down to `1`. -/
def Shuffle (d : List Nat) (s : Nat) : Option (List Nat × Nat) :=
  (GenExchangeTable d.length s).map fun q =>
    (shuffleLoop q.1 d.length d (d.length - 1), q.2)

/-- DeShuffle (pesc.c lines 88-99): build the exchange table, apply the swaps
for `i = 1` up to `len - 1`. -/
def DeShuffle (d : List Nat) (s : Nat) : Option (List Nat × Nat) :=
  (GenExchangeTable d.length s).map fun q =>
    (deShuffleLoop q.1 d.length d (d.length - 1), q.2)

/-- Code (pesc.c lines 102-106): for each position in order, draw one value
and add `random() % 255` to the byte, wrapping modulo 256. -/
def Code : List Nat → Nat → List Nat × Nat
  | [], s => ([], s)
  | b :: r, s =>
    let p := randomStep s
    let q := Code r p.2
    ((b + p.1 % 255) % 256 :: q.1, q.2)

/-- DeCode (pesc.c lines 108-112): subtract `random() % 255` at each
position, wrapping modulo 256 (`b - m` on a byte is `(b + (256 - m)) % 256`
for a mask `m < 256`). -/
def DeCode : List Nat → Nat → List Nat × Nat
  | [], s => ([], s)
  | b :: r, s =>
    let p := randomStep s
    let q := DeCode r p.2
    ((b + (256 - p.1 % 255)) % 256 :: q.1, q.2)

/-- One round of `Encrypt` (pesc.c lines 117-123): seed with `keys[i]`,
shuffle, seed with `keys[kn - 1 - i]`, code. -/
def EncRound (keys : List Nat) (i : Nat) (d : List Nat) : Option (List Nat) :=
  (Shuffle d (keys.getD i 0)).map fun q =>
    (Code q.1 (keys.getD (keys.length - 1 - i) 0)).1

/-- One round of `Decrypt` (pesc.c lines 128-134): seed with
`keys[kn - 1 - i]`, decode, seed with `keys[i]`, deshuffle. -/
def DecRound (keys : List Nat) (i : Nat) (d : List Nat) : Option (List Nat) :=
  (DeShuffle (DeCode d (keys.getD (keys.length - 1 - i) 0)).1 (keys.getD i 0)).map
    fun q => q.1

/-- Encrypt (pesc.c lines 115-124): rounds `i = 0, ..., kn - 1` in order. -/
def Encrypt (d keys : List Nat) : Option (List Nat) :=
  (List.range keys.length).foldl (fun od i => od.bind (EncRound keys i)) (some d)

/-- Decrypt (pesc.c lines 126-135): rounds `i = kn - 1, ..., 0`. -/
def Decrypt (d keys : List Nat) : Option (List Nat) :=
  (List.range keys.length).reverse.foldl (fun od i => od.bind (DecRound keys i)) (some d)

/-! Basic generator lemmas. -/

theorem randomStep_eq (s : Nat) : randomStep s = (randomV s % 65535, randomV s) := by
  simp [randomStep, RAND_MAX]

theorem seedAfter_shift (s : Nat) : ∀ k, seedAfter s (k + 1) = seedAfter (randomStep s).2 k := by
  intro k
  induction k with
  | zero => rfl
  | succ k ih =>
    show (randomStep (seedAfter s (k + 1))).2 = (randomStep (seedAfter (randomStep s).2 k)).2
    rw [ih]

theorem drawAt_shift (s k : Nat) : drawAt s (k + 1) = drawAt (randomStep s).2 k := by
  unfold drawAt
  rw [seedAfter_shift]

/-! Exchange-table lemmas. -/

theorem genTableAux_length : ∀ (m s : Nat), (genTableAux m s).1.length = m
  | 0, _ => rfl
  | m + 1, s => by simp [genTableAux, genTableAux_length m]

theorem genTableAux_getD (m s j : Nat) (hj : j < m) :
    (genTableAux m s).1.getD j 0 = drawAt s j % (m + 1 - j) := by
  induction m generalizing s j with
  | zero => omega
  | succ m ih =>
    cases j with
    | zero =>
      show ((randomStep s).1 % (m + 2) :: (genTableAux m (randomStep s).2).1).getD 0 0 = _
      rw [List.getD_cons_zero]
      rfl
    | succ j =>
      have hj' : j < m := by omega
      show ((randomStep s).1 % (m + 2) :: (genTableAux m (randomStep s).2).1).getD (j + 1) 0 = _
      rw [List.getD_cons_succ, ih (randomStep s).2 j hj', drawAt_shift]
      congr 1
      omega

theorem table_bound (len s : Nat) :
    ∀ j, j < len - 1 → (genTableAux (len - 1) s).1.getD j 0 ≤ len - 1 - j := by
  intro j hj
  rw [genTableAux_getD (len - 1) s j hj]
  have h0 : 0 < len - 1 + 1 - j := by omega
  have := Nat.mod_lt (drawAt s j) h0
  omega

/-! Swap lemmas. -/

theorem swapElems_length (d : List Nat) (a b : Nat) : (swapElems d a b).length = d.length := by
  simp [swapElems]

theorem getD_of_lt (d : List Nat) {i : Nat} (h : i < d.length) : d.getD i 0 = d[i] :=
  List.getD_eq_getElem d 0 h

theorem swapElems_getD (d : List Nat) (a b i : Nat) (ha : a < d.length) (hb : b < d.length)
    (hi : i < d.length) :
    (swapElems d a b).getD i 0 =
      if i = b then d.getD a 0 else if i = a then d.getD b 0 else d.getD i 0 := by
  have hi2 : i < (swapElems d a b).length := by rw [swapElems_length]; exact hi
  rw [getD_of_lt _ hi2]
  unfold swapElems
  rw [List.getElem_set, List.getElem_set]
  rw [getD_of_lt d hi]
  split_ifs <;> first | rfl | omega | (subst_vars; first | rfl | omega)

theorem swapElems_swapElems (d : List Nat) (a b : Nat) (ha : a < d.length) (hb : b < d.length) :
    swapElems (swapElems d a b) a b = d := by
  have h1 : (swapElems (swapElems d a b) a b).length = d.length := by
    rw [swapElems_length, swapElems_length]
  apply List.ext_getElem h1
  intro i hi1 hi2
  have hswl : (swapElems d a b).length = d.length := swapElems_length d a b
  rw [← getD_of_lt _ hi1]
  rw [swapElems_getD (swapElems d a b) a b i (by omega) (by omega) (by omega)]
  rw [swapElems_getD d a b a ha hb ha, swapElems_getD d a b b ha hb hb,
      swapElems_getD d a b i ha hb hi2]
  rw [getD_of_lt d ha, getD_of_lt d hb, getD_of_lt d hi2]
  split_ifs <;> first | rfl | omega | (subst_vars; first | rfl | omega)

/-! Multiset preservation of swaps. -/

theorem coe_set (d : List Nat) (a x : Nat) (ha : a < d.length) :
    (↑(d.set a x) : Multiset Nat) + {d.getD a 0} = (↑d : Multiset Nat) + {x} := by
  induction d generalizing a with
  | nil => simp at ha
  | cons y r ih =>
    cases a with
    | zero =>
      rw [List.set_cons_zero, List.getD_cons_zero, ← Multiset.cons_coe, ← Multiset.cons_coe,
          ← Multiset.singleton_add, ← Multiset.singleton_add]
      abel
    | succ a =>
      have ha' : a < r.length := by simpa using ha
      rw [List.set_cons_succ, List.getD_cons_succ, ← Multiset.cons_coe, ← Multiset.cons_coe,
          Multiset.cons_add, Multiset.cons_add, ih a ha']

theorem coe_swapElems (d : List Nat) (a b : Nat) (ha : a < d.length) (hb : b < d.length) :
    (↑(swapElems d a b) : Multiset Nat) = ↑d := by
  have hx : (d.set a (d.getD b 0)).getD b 0 = d.getD b 0 := by
    have hb2 : b < (d.set a (d.getD b 0)).length := by simpa using hb
    rw [getD_of_lt _ hb2, List.getElem_set]
    split_ifs with h
    · rfl
    · exact (getD_of_lt d hb).symm
  have h1 := coe_set d a (d.getD b 0) ha
  have h2 := coe_set (d.set a (d.getD b 0)) b (d.getD a 0) (by simpa using hb)
  unfold swapElems
  rw [hx, h1] at h2
  exact add_right_cancel h2

/-! Shuffle-loop lemmas. -/

theorem shuffleLoop_length (t : List Nat) (len : Nat) :
    ∀ (k : Nat) (d : List Nat), (shuffleLoop t len d k).length = d.length
  | 0, _ => rfl
  | k + 1, d => by
    show (shuffleLoop t len (swapElems d (k + 1) (t.getD (len - 1 - (k + 1)) 0)) k).length = _
    rw [shuffleLoop_length t len k, swapElems_length]

theorem deShuffleLoop_length (t : List Nat) (len : Nat) :
    ∀ (k : Nat) (d : List Nat), (deShuffleLoop t len d k).length = d.length
  | 0, _ => rfl
  | k + 1, d => by
    show (swapElems (deShuffleLoop t len d k) (k + 1) (t.getD (len - 1 - (k + 1)) 0)).length = _
    rw [swapElems_length, deShuffleLoop_length t len k]

theorem shuffleLoop_coe (t : List Nat) (len : Nat)
    (hb : ∀ j, j < len - 1 → t.getD j 0 ≤ len - 1 - j) :
    ∀ (k : Nat) (d : List Nat), d.length = len → k < len →
      (↑(shuffleLoop t len d k) : Multiset Nat) = ↑d := by
  intro k
  induction k with
  | zero => intro d _ _; rfl
  | succ k ih =>
    intro d hd hk
    have hidx : len - 1 - (k + 1) < len - 1 := by omega
    have hn : t.getD (len - 1 - (k + 1)) 0 ≤ k + 1 := by
      have := hb _ hidx
      omega
    show (↑(shuffleLoop t len (swapElems d (k + 1) (t.getD (len - 1 - (k + 1)) 0)) k) :
        Multiset Nat) = ↑d
    rw [ih _ (by rw [swapElems_length]; exact hd) (by omega)]
    exact coe_swapElems d (k + 1) _ (by omega) (by omega)

theorem deShuffleLoop_coe (t : List Nat) (len : Nat)
    (hb : ∀ j, j < len - 1 → t.getD j 0 ≤ len - 1 - j) :
    ∀ (k : Nat) (d : List Nat), d.length = len → k < len →
      (↑(deShuffleLoop t len d k) : Multiset Nat) = ↑d := by
  intro k
  induction k with
  | zero => intro d _ _; rfl
  | succ k ih =>
    intro d hd hk
    have hidx : len - 1 - (k + 1) < len - 1 := by omega
    have hn : t.getD (len - 1 - (k + 1)) 0 ≤ k + 1 := by
      have := hb _ hidx
      omega
    show (↑(swapElems (deShuffleLoop t len d k) (k + 1) (t.getD (len - 1 - (k + 1)) 0)) :
        Multiset Nat) = ↑d
    have hl : (deShuffleLoop t len d k).length = d.length := deShuffleLoop_length t len k d
    rw [coe_swapElems _ (k + 1) _ (by omega) (by omega)]
    exact ih d hd (by omega)

theorem deShuffleLoop_shuffleLoop (t : List Nat) (len : Nat)
    (hb : ∀ j, j < len - 1 → t.getD j 0 ≤ len - 1 - j) :
    ∀ (k : Nat) (d : List Nat), d.length = len → k < len →
      deShuffleLoop t len (shuffleLoop t len d k) k = d := by
  intro k
  induction k with
  | zero => intro d _ _; rfl
  | succ k ih =>
    intro d hd hk
    have hidx : len - 1 - (k + 1) < len - 1 := by omega
    have hn : t.getD (len - 1 - (k + 1)) 0 ≤ k + 1 := by
      have := hb _ hidx
      omega
    show swapElems
        (deShuffleLoop t len (shuffleLoop t len (swapElems d (k + 1) _) k) k) (k + 1) _ = d
    rw [ih _ (by rw [swapElems_length]; exact hd) (by omega)]
    exact swapElems_swapElems d (k + 1) _ (by omega) (by omega)

/-! Shuffle / DeShuffle wrappers. -/

theorem Shuffle_eq (d : List Nat) (s : Nat) (h : d ≠ []) :
    Shuffle d s = some (shuffleLoop (genTableAux (d.length - 1) s).1 d.length d (d.length - 1),
      (genTableAux (d.length - 1) s).2) := by
  have h0 : d.length ≠ 0 := by simpa [List.length_eq_zero] using h
  simp [Shuffle, GenExchangeTable, h0]

theorem DeShuffle_eq (d : List Nat) (s : Nat) (h : d ≠ []) :
    DeShuffle d s = some (deShuffleLoop (genTableAux (d.length - 1) s).1 d.length d (d.length - 1),
      (genTableAux (d.length - 1) s).2) := by
  have h0 : d.length ≠ 0 := by simpa [List.length_eq_zero] using h
  simp [DeShuffle, GenExchangeTable, h0]

theorem Shuffle_DeShuffle (d : List Nat) (s : Nat) (h : d ≠ []) :
    ∃ p, Shuffle d s = some p ∧ p.1.length = d.length ∧
      (↑p.1 : Multiset Nat) = ↑d ∧ DeShuffle p.1 s = some (d, p.2) := by
  have h0 : d.length ≠ 0 := by simpa [List.length_eq_zero] using h
  set t := (genTableAux (d.length - 1) s).1 with ht
  have hb : ∀ j, j < d.length - 1 → t.getD j 0 ≤ d.length - 1 - j := table_bound d.length s
  have hL : (shuffleLoop t d.length d (d.length - 1)).length = d.length :=
    shuffleLoop_length t d.length (d.length - 1) d
  refine ⟨(shuffleLoop t d.length d (d.length - 1), (genTableAux (d.length - 1) s).2),
    Shuffle_eq d s h, hL, ?_, ?_⟩
  · exact shuffleLoop_coe t d.length hb (d.length - 1) d rfl (by omega)
  · have h2 : shuffleLoop t d.length d (d.length - 1) ≠ [] := by
      rw [← List.length_pos, hL]
      omega
    rw [DeShuffle_eq _ s h2]
    simp only [hL]
    rw [deShuffleLoop_shuffleLoop t d.length hb (d.length - 1) d rfl (by omega)]

theorem DeShuffle_coe (d : List Nat) (s : Nat) (h : d ≠ []) :
    ∃ p, DeShuffle d s = some p ∧ p.1.length = d.length ∧ (↑p.1 : Multiset Nat) = ↑d := by
  have h0 : d.length ≠ 0 := by simpa [List.length_eq_zero] using h
  set t := (genTableAux (d.length - 1) s).1 with ht
  have hb : ∀ j, j < d.length - 1 → t.getD j 0 ≤ d.length - 1 - j := table_bound d.length s
  refine ⟨(deShuffleLoop t d.length d (d.length - 1), (genTableAux (d.length - 1) s).2),
    DeShuffle_eq d s h, deShuffleLoop_length t d.length (d.length - 1) d, ?_⟩
  exact deShuffleLoop_coe t d.length hb (d.length - 1) d rfl (by omega)

/-! Code / DeCode lemmas. -/

theorem Code_length : ∀ (d : List Nat) (s : Nat), (Code d s).1.length = d.length
  | [], _ => rfl
  | b :: r, s => by
    show ((b + (randomStep s).1 % 255) % 256 :: (Code r (randomStep s).2).1).length = _
    rw [List.length_cons, Code_length r]
    rfl

theorem Code_lt : ∀ (d : List Nat) (s : Nat), ∀ x ∈ (Code d s).1, x < 256
  | [], s => by
    intro x hx
    simp [Code] at hx
  | b :: r, s => by
    intro x hx
    have : x ∈ (b + (randomStep s).1 % 255) % 256 :: (Code r (randomStep s).2).1 := hx
    rcases List.mem_cons.mp this with h | h
    · subst h
      exact Nat.mod_lt _ (by omega)
    · exact Code_lt r (randomStep s).2 x h

theorem DeCode_Code : ∀ (d : List Nat) (s : Nat), (∀ x ∈ d, x < 256) →
    (DeCode (Code d s).1 s).1 = d
  | [], _, _ => rfl
  | b :: r, s, h => by
    have hb : b < 256 := h b (List.mem_cons_self b r)
    have hm : (randomStep s).1 % 255 < 255 := Nat.mod_lt _ (by omega)
    show ((b + (randomStep s).1 % 255) % 256 + (256 - (randomStep s).1 % 255)) % 256 ::
        (DeCode (Code r (randomStep s).2).1 (randomStep s).2).1 = b :: r
    rw [DeCode_Code r (randomStep s).2 (fun x hx => h x (List.mem_cons_of_mem b hx))]
    congr 1
    omega

theorem Code_getD : ∀ (d : List Nat) (s i : Nat), i < d.length →
    (Code d s).1.getD i 0 = (d.getD i 0 + drawAt s i % 255) % 256
  | [], _, i, hi => by simp at hi
  | b :: r, s, 0, _ => by
    show ((b + (randomStep s).1 % 255) % 256 :: (Code r (randomStep s).2).1).getD 0 0 = _
    rw [List.getD_cons_zero, List.getD_cons_zero]
    rfl
  | b :: r, s, i + 1, hi => by
    show ((b + (randomStep s).1 % 255) % 256 :: (Code r (randomStep s).2).1).getD (i + 1) 0 = _
    rw [List.getD_cons_succ, List.getD_cons_succ,
      Code_getD r (randomStep s).2 i (by simpa using hi), drawAt_shift]

theorem DeCode_getD : ∀ (d : List Nat) (s i : Nat), i < d.length →
    (DeCode d s).1.getD i 0 = (d.getD i 0 + (256 - drawAt s i % 255)) % 256
  | [], _, i, hi => by simp at hi
  | b :: r, s, 0, _ => by
    show ((b + (256 - (randomStep s).1 % 255)) % 256 :: (DeCode r (randomStep s).2).1).getD 0 0 = _
    rw [List.getD_cons_zero, List.getD_cons_zero]
    rfl
  | b :: r, s, i + 1, hi => by
    show ((b + (256 - (randomStep s).1 % 255)) % 256 ::
        (DeCode r (randomStep s).2).1).getD (i + 1) 0 = _
    rw [List.getD_cons_succ, List.getD_cons_succ,
      DeCode_getD r (randomStep s).2 i (by simpa using hi), drawAt_shift]

/-! Round and fold lemmas. -/

theorem foldl_bind_none (h : Nat → List Nat → Option (List Nat)) :
    ∀ l : List Nat, l.foldl (fun od i => od.bind (h i)) none = none
  | [] => rfl
  | i :: t => by
    rw [List.foldl_cons]
    show t.foldl _ none = none
    exact foldl_bind_none h t

theorem foldl_bind_inverse (f g : Nat → List Nat → Option (List Nat)) (P : List Nat → Prop) :
    ∀ (l : List Nat) (d : List Nat), P d →
      (∀ i ∈ l, ∀ x, P x → ∃ y, f i x = some y ∧ P y ∧ g i y = some x) →
      l.reverse.foldl (fun od i => od.bind (g i)) (l.foldl (fun od i => od.bind (f i)) (some d))
        = some d := by
  intro l
  induction l with
  | nil => intro d _ _; rfl
  | cons i t ih =>
    intro d hd hfg
    obtain ⟨d1, hf, hP1, hg⟩ := hfg i (List.mem_cons_self i t) d hd
    rw [List.foldl_cons, List.reverse_cons, List.foldl_append]
    show ([i].foldl _ (t.reverse.foldl _ (t.foldl _ ((some d).bind (f i))))) = some d
    rw [Option.some_bind, hf,
      ih d1 hP1 (fun j hj x hx => hfg j (List.mem_cons_of_mem i hj) x hx)]
    show (some d1).bind (g i) = some d
    rw [Option.some_bind, hg]

theorem EncRound_DecRound (keys : List Nat) (i : Nat) (d : List Nat)
    (h1 : d ≠ []) (h2 : ∀ x ∈ d, x < 256) :
    ∃ d2, EncRound keys i d = some d2 ∧ (d2 ≠ [] ∧ ∀ x ∈ d2, x < 256) ∧
      DecRound keys i d2 = some d := by
  obtain ⟨p, hS, hL, hM, hD⟩ := Shuffle_DeShuffle d (keys.getD i 0) h1
  have hp1 : ∀ x ∈ p.1, x < 256 := by
    intro x hx
    apply h2
    have hx2 : x ∈ (↑p.1 : Multiset Nat) := Multiset.mem_coe.mpr hx
    rw [hM] at hx2
    exact Multiset.mem_coe.mp hx2
  refine ⟨(Code p.1 (keys.getD (keys.length - 1 - i) 0)).1, ?_, ⟨?_, ?_⟩, ?_⟩
  · rw [EncRound, hS]
    rfl
  · rw [← List.length_pos, Code_length, hL, List.length_pos]
    exact h1
  · exact Code_lt p.1 _
  · rw [DecRound, DeCode_Code p.1 _ hp1, hD]
    rfl

/-- Round-trip core: with a non-empty byte buffer, running all Encrypt
rounds then all Decrypt rounds restores the buffer. -/
theorem Decrypt_Encrypt (d keys : List Nat) (h1 : d ≠ []) (h2 : ∀ x ∈ d, x < 256) :
    ((Encrypt d keys).bind fun c => Decrypt c keys) = some d := by
  have main := foldl_bind_inverse (EncRound keys) (DecRound keys)
    (fun x => x ≠ [] ∧ ∀ b ∈ x, b < 256) (List.range keys.length) d ⟨h1, h2⟩
    (fun i _ x hx => by
      obtain ⟨d2, he, hp, hdec⟩ := EncRound_DecRound keys i x hx.1 hx.2
      exact ⟨d2, he, hp, hdec⟩)
  have key : ((Encrypt d keys).bind fun c => Decrypt c keys)
      = (List.range keys.length).reverse.foldl (fun od i => od.bind (DecRound keys i))
        (Encrypt d keys) := by
    rcases hE : Encrypt d keys with _ | c
    · rw [Option.none_bind, foldl_bind_none]
    · rw [Option.some_bind]
      rfl
  rw [key]
  exact main

/-! Claim theorems. -/

/-- C1 counterexample: on the empty buffer the round trip does not return
the buffer — Encrypt already fails (the `len = 0` table build dereferences a
failed allocation), so the claim as stated (which includes the empty buffer)
is false. -/
theorem C1_counterexample : ((Encrypt [] [1]).bind fun c => Decrypt c [1]) = none := by
  decide

/-- C1 (amended to non-empty buffers): for every non-empty byte buffer and
every non-empty key list, Decrypt of Encrypt restores the buffer exactly. -/
theorem C1_roundtrip (d keys : List Nat) (h1 : d ≠ []) (h2 : ∀ x ∈ d, x < 256)
    (h3 : keys ≠ []) :
    ((Encrypt d keys).bind fun c => Decrypt c keys) = some d :=
  Decrypt_Encrypt d keys h1 h2

/-- C1 witness: the round trip at a concrete buffer and two subkeys. -/
theorem C1_roundtrip_witness :
    ((Encrypt [72, 101, 108] [4279383126, 305419896]).bind
      fun c => Decrypt c [4279383126, 305419896]) = some [72, 101, 108] :=
  C1_roundtrip [72, 101, 108] [4279383126, 305419896] (by decide) (by decide) (by decide)

/-- C2: with an empty buffer the code does not terminate cleanly: `len - 1`
wraps in `size_t` to `2 ^ 64 - 1` table entries, the requested byte count
itself wraps to `2 ^ 64 - 8`, the allocation cannot succeed, and the store
loop writes through it — modelled as failure, so Encrypt and Decrypt on the
empty buffer are `none`, not the empty buffer the claim promises. -/
theorem C2_empty_buffer_fails :
    sizeSub1 0 = 2 ^ 64 - 1 ∧ sizeSub1 0 * 8 % 2 ^ 64 = 2 ^ 64 - 8 ∧
    GenExchangeTable 0 1 = none ∧ Encrypt [] [1] = none ∧ Decrypt [] [1] = none := by
  decide

/-- C3: at Seed = 127773 the true Park-Miller difference is negative
(`-2836`); the claimed signed correction would produce state 2147480811 and
output 29931, but the code's unsigned accumulator wraps to 4294964460 and
outputs 62700 — the two step functions diverge. -/
theorem C3_signed_unsigned_divergence :
    randomStep 127773 = (62700, 4294964460) ∧
    specRandomStep 127773 = (29931, 2147480811) := by
  decide

/-- C4: the little-endian branch (the one compiled on mainstream hosts) puts
the first hex character of a group in the lowest nibble: key group
"00000001" parses to 0x10000000, not 0x00000001; "12345678" parses to
0x87654321.  The big-endian branch gives the claimed most-significant-first
value. -/
theorem C4_nibble_order :
    HexToUInt32LE ['0', '0', '0', '0', '0', '0', '0', '1'] 0 = some 268435456 ∧
    HexToUInt32BE ['0', '0', '0', '0', '0', '0', '0', '1'] 0 = some 1 ∧
    HexToUInt32LE ['1', '2', '3', '4', '5', '6', '7', '8'] 0 = some 2271560481 := by
  decide

/-- C5 counterexample: on the empty buffer, Shuffle (and hence the round
trip) fails instead of restoring the buffer, so the claim as stated (every
buffer) is false. -/
theorem C5_counterexample :
    ((Shuffle ([] : List Nat) 5).bind fun p => DeShuffle p.1 5) = none := by
  decide

/-- C5 (amended to non-empty buffers): for every non-empty buffer and every
seed, Shuffle then DeShuffle from the same starting seed (and hence the same
generator draw sequence) restores the buffer, and both calls leave the
generator in the same final state. -/
theorem C5_shuffle_inverse (d : List Nat) (s : Nat) (h : d ≠ []) :
    ∃ p, Shuffle d s = some p ∧ DeShuffle p.1 s = some (d, p.2) := by
  obtain ⟨p, hS, _, _, hD⟩ := Shuffle_DeShuffle d s h
  exact ⟨p, hS, hD⟩

/-- C5 witness: the inverse property at a concrete buffer and seed. -/
theorem C5_shuffle_inverse_witness :
    ∃ p, Shuffle [3, 1, 4, 1, 5] 42 = some p ∧ DeShuffle p.1 42 = some ([3, 1, 4, 1, 5], p.2) :=
  C5_shuffle_inverse [3, 1, 4, 1, 5] 42 (by decide)

/-- C6: the negative-correction test of the generator compares the unsigned
accumulator with 0, which is always false, so a step never adds 2147483647:
it always returns exactly the uncorrected accumulator and its residue. -/
theorem C6_dead_branch (s : Nat) :
    decide (randomV s < 0) = false ∧ randomStep s = (randomV s % (RAND_MAX + 1), randomV s) := by
  refine ⟨decide_eq_false (Nat.not_lt_zero _), ?_⟩
  rw [randomStep_eq]
  rfl

/-- C7: for every buffer length n ≥ 1 and seed, the exchange table has n - 1
entries; the entry at build position j is the (j+1)-th generator draw modulo
(n - j) (countdown index i = n - 1 - j, modulus i + 1) and lies in
[0, n - 1 - j]. -/
theorem C7_table_validity (n s j : Nat) (hn : 1 ≤ n) (hj : j < n - 1) :
    ∃ q, GenExchangeTable n s = some q ∧ q.1.length = n - 1 ∧
      q.1.getD j 0 ≤ n - 1 - j ∧ q.1.getD j 0 = drawAt s j % (n - j) := by
  have h0 : n ≠ 0 := by omega
  refine ⟨genTableAux (n - 1) s, by simp [GenExchangeTable, h0],
    genTableAux_length (n - 1) s, table_bound n s j hj, ?_⟩
  rw [genTableAux_getD (n - 1) s j hj]
  congr 1
  omega

/-- C7 witness: the table facts at n = 5, seed 9, position 2. -/
theorem C7_table_validity_witness :
    ∃ q, GenExchangeTable 5 9 = some q ∧ q.1.length = 4 ∧
      q.1.getD 2 0 ≤ 2 ∧ q.1.getD 2 0 = drawAt 9 2 % 3 :=
  C7_table_validity 5 9 2 (by decide) (by decide)

/-- C8: Code adds, and DeCode subtracts (as mod-256 addition of the
complement), the mask "i-th draw mod 255" at byte position i; the mask is at
most 254. -/
theorem C8_byte_mask (d : List Nat) (s i : Nat) (hi : i < d.length) :
    drawAt s i % 255 ≤ 254 ∧
    (Code d s).1.getD i 0 = (d.getD i 0 + drawAt s i % 255) % 256 ∧
    (DeCode d s).1.getD i 0 = (d.getD i 0 + (256 - drawAt s i % 255)) % 256 := by
  refine ⟨?_, Code_getD d s i hi, DeCode_getD d s i hi⟩
  have := Nat.mod_lt (drawAt s i) (show 0 < 255 by omega)
  omega

/-- C8 witness: the mask facts at buffer [200], seed 1, position 0. -/
theorem C8_byte_mask_witness :
    drawAt 1 0 % 255 ≤ 254 ∧
    (Code [200] 1).1.getD 0 0 = (([200] : List Nat).getD 0 0 + drawAt 1 0 % 255) % 256 ∧
    (DeCode [200] 1).1.getD 0 0 = (([200] : List Nat).getD 0 0 + (256 - drawAt 1 0 % 255)) % 256 :=
  C8_byte_mask [200] 1 0 (by decide)

/-- C9: the seed a generator step actually draws from is never zero: a zero
seed is first replaced by the fixed non-zero constant 0xF1F2F3F4, and a step
from seed 0 behaves exactly like a step from that constant. -/
theorem C9_zero_seed (s' : Nat) :
    0 < effSeed s' ∧ effSeed 0 = 0xF1F2F3F4 ∧ randomStep 0 = randomStep 0xF1F2F3F4 := by
  refine ⟨?_, by decide, by decide⟩
  unfold effSeed
  split_ifs with h <;> omega

/-- C10: for every buffer of length at least 1 and every seed, Shuffle and
DeShuffle both succeed and only rearrange the buffer: the multiset of bytes
is unchanged. -/
theorem C10_multiset (d : List Nat) (s : Nat) (h : 1 ≤ d.length) :
    ∃ p q, Shuffle d s = some p ∧ (↑p.1 : Multiset Nat) = ↑d ∧
      DeShuffle d s = some q ∧ (↑q.1 : Multiset Nat) = ↑d := by
  have hne : d ≠ [] := by rw [← List.length_pos]; omega
  obtain ⟨p, hS, _, hM, _⟩ := Shuffle_DeShuffle d s hne
  obtain ⟨q, hD, _, hM2⟩ := DeShuffle_coe d s hne
  exact ⟨p, q, hS, hM, hD, hM2⟩

/-- C10 witness: multiset preservation at a concrete buffer and seed. -/
theorem C10_multiset_witness :
    ∃ p q, Shuffle [9, 9, 2] 8 = some p ∧ (↑p.1 : Multiset Nat) = ↑([9, 9, 2] : List Nat) ∧
      DeShuffle [9, 9, 2] 8 = some q ∧ (↑q.1 : Multiset Nat) = ↑([9, 9, 2] : List Nat) :=
  C10_multiset [9, 9, 2] 8 (by decide)
